import Mathlib

/-!
Verification of the pixgrid conversion pipeline and session store.

The Go sources are shallowly embedded as follows.

An image is a width/height pair together with a pixel grid addressed by
zero-based coordinates; pixels are RGBA with 8-bit channels (Go uint8),
modelled as Fin 256.  Reading a pixel outside the bounds of a Go RGBA
image yields the zero color, which Image.At reproduces.

Go int parameters that can be negative (targetWidth, scaleFactor,
numColors) are modelled as Int; Go integer division truncates toward
zero and is modelled by Int.tdiv.  Go image.Rect canonicalises a
rectangle with negative corners by swapping, so the constructed image
dimensions are absolute values (Int.natAbs) and a pixel is written only
when the loop bounds (0 <= x < targetWidth, as an integer comparison)
cover it; unwritten pixels of a fresh RGBA buffer are the zero color.

The float64 sampling expression of Downscale,
srcX = int((float64(x) + 0.5) * (float64(W) / float64(t))), is modelled
bit-exactly: goSrcIndex performs the two IEEE-754 round-to-nearest-even
roundings (the division W/t and the product) on 53-bit significands in
explicit integer arithmetic and then truncates.  x + 0.5 and the int-to-
float conversions are exact for x < 2^52 and W, t < 2^53, and the
natural-number normalisation in goSrcIndex is valid for
1 <= t <= W < 2^53, which covers every constructible image; outside that
envelope goSrcIndex is total but unconstrained.  This computation is NOT
the exact rational floor((x + 0.5) * W / t): the two roundings can land
one below it (first divergence at W = 26, t = 23, x = 11, where the
float64 product is just under 13).

The float expression of quantizeChannel, trunc(v / step + 0.5), is
modelled as (2*v + step) / (2*step); for all v, step in 0..255 the
float64 evaluation equals this exact value (the quotient v/step is never
within a rounding error of a value that would change the truncation).
Session timestamps are nanosecond counts (Nat), matching time.Time
differences on a monotone clock.
-/

/-- One RGBA pixel with 8-bit channels, as stored by Go color.RGBA. -/
structure Pixel where
  r : Fin 256
  g : Fin 256
  b : Fin 256
  a : Fin 256
deriving DecidableEq, Repr

/-- The zero color returned by Go RGBA images outside their bounds and
filling a freshly allocated RGBA buffer. -/
def Pixel.zero : Pixel := ⟨0, 0, 0, 0⟩

/-- An image: explicit width and height plus the pixel grid, addressed by
zero-based coordinates.  Models Go image.Image with canonical bounds. -/
@[ext]
structure Image where
  width : Nat
  height : Nat
  px : Nat → Nat → Pixel

/-- Go img.At(x, y): the stored pixel inside bounds, the zero color outside. -/
def Image.At (img : Image) (x y : Nat) : Pixel :=
  if x < img.width ∧ y < img.height then img.px x y else Pixel.zero

theorem Image.At_eq_px {img : Image} {x y : Nat}
    (hx : x < img.width) (hy : y < img.height) : img.At x y = img.px x y :=
  if_pos ⟨hx, hy⟩

/-- targetHeight := (origHeight * targetWidth) / origWidth from Downscale
(converter source, line 10): Go int division, truncating toward zero. -/
def targetHeightOf (img : Image) (targetWidth : Int) : Int :=
  ((img.height : Int) * targetWidth).tdiv (img.width : Int)

/-- Floor of the base-2 logarithm by fuel recursion (so that it reduces in
the kernel); lgAux fuel n halves n until it reaches 1. -/
def lgAux : Nat → Nat → Nat
  | 0, _ => 0
  | fuel + 1, n => if n ≤ 1 then 0 else lgAux fuel (n / 2) + 1

/-- Floor of the base-2 logarithm: the exponent of an IEEE-754 value. -/
def lg (n : Nat) : Nat := lgAux n n

/-- Round n / d to the nearest integer, ties to even: the IEEE-754
round-to-nearest-even rule applied at integer granularity. -/
def rne (n d : Nat) : Nat :=
  if 2 * (n % d) < d then n / d
  else if d < 2 * (n % d) then n / d + 1
  else if n / d % 2 = 0 then n / d else n / d + 1

/-- The binade exponent of W / t: the unique e with 2^e <= W/t < 2^(e+1),
written with natural subtraction (valid for 1 <= t <= W < 2^53, where the
exponent is in 0..52). -/
def flExp (W t : Nat) : Nat :=
  if t * 2 ^ lg W ≤ W * 2 ^ lg t then lg W - lg t else lg W - lg t - 1

/-- The 53-bit significand of the correctly rounded float64 quotient W / t:
the value of float64(W) / float64(t) is flMant W t * 2^(flExp W t - 52). -/
def flMant (W t : Nat) : Nat := rne (W * 2 ^ (52 - flExp W t)) t

/-- Bit-exact model of Go's srcX computation in Downscale (converter
source, lines 14 and 19): int((float64(x) + 0.5) * (float64(W) /
float64(t))).  The quotient W/t is rounded to a 53-bit significand
(flMant, flExp); the product with the exact x + 0.5 = (2*x + 1)/2 has
numerator N2 and is rounded to 53 significant bits again (shift s, round
to nearest even); the final division by 2^53 truncates toward zero.
Faithful for x < 2^52 and 1 <= t <= W < 2^53, which covers every image a
Go process can construct. -/
def goSrcIndex (x W t : Nat) : Nat :=
  let N2 := (2 * x + 1) * flMant W t
  let s := lg N2 + 1 - 53
  rne N2 (2 ^ s) * 2 ^ (s + flExp W t) / 2 ^ 53

/-- Downscale (converter source, lines 5-29): nearest-neighbor resampling to
width targetWidth, sampling the source at the float64-computed center of
each destination cell: srcX = int((x + 0.5) * scaleX) with
scaleX = float64(origWidth) / float64(targetWidth), modelled bit-exactly by
goSrcIndex, and likewise for srcY with targetHeight. -/
def Downscale (img : Image) (targetWidth : Int) : Image where
  width := targetWidth.natAbs
  height := (targetHeightOf img targetWidth).natAbs
  px := fun x y =>
    if x < targetWidth.toNat ∧ y < (targetHeightOf img targetWidth).toNat then
      img.At (goSrcIndex x img.width targetWidth.toNat)
             (goSrcIndex y img.height (targetHeightOf img targetWidth).toNat)
    else Pixel.zero

/-- UpscaleNearestNeighbor (converter source, lines 31-53): block replication;
destination pixel (x, y) copies source pixel (x / scaleFactor, y / scaleFactor)
with integer division. -/
def UpscaleNearestNeighbor (img : Image) (scaleFactor : Int) : Image where
  width := ((img.width : Int) * scaleFactor).natAbs
  height := ((img.height : Int) * scaleFactor).natAbs
  px := fun x y =>
    if x < ((img.width : Int) * scaleFactor).toNat ∧
       y < ((img.height : Int) * scaleFactor).toNat then
      img.At (x / scaleFactor.toNat) (y / scaleFactor.toNat)
    else Pixel.zero

/-- levelsPerChannel and step from QuantizeColors (converter source, lines
15-20): levelsPerChannel = trunc(numColors / 3.0) clamped below by 2, then
step = 255 / (levelsPerChannel - 1) in Go int division. -/
def quantStep (numColors : Int) : Nat :=
  ((255 : Int).tdiv (max 2 (numColors.tdiv 3) - 1)).toNat

/-- quantizeChannel (converter source, lines 44-53):
level := trunc(value / step + 0.5), written in exact integer arithmetic as
(2*value + step) / (2*step); result := level * step clamped above by 255.
When step = 0 the Go code also returns 0 because result = level * 0. -/
def quantizeChannel (value : Fin 256) (step : Nat) : Fin 256 :=
  ⟨min 255 ((2 * value.val + step) / (2 * step) * step), by omega⟩

/-- The per-pixel body of the QuantizeColors loop (converter source, lines
24-37): quantize R, G and B, keep alpha. -/
def quantizePixel (p : Pixel) (step : Nat) : Pixel :=
  ⟨quantizeChannel p.r step, quantizeChannel p.g step, quantizeChannel p.b step, p.a⟩

/-- QuantizeColors (converter source, lines 8-42): same dimensions as the
input, every pixel quantized channel-wise with the step derived from
numColors, alpha passed through. -/
def QuantizeColors (img : Image) (numColors : Int) : Image where
  width := img.width
  height := img.height
  px := fun x y =>
    if x < img.width ∧ y < img.height then
      quantizePixel (img.At x y) (quantStep numColors)
    else Pixel.zero

/-- The quantization stage as composed by the pipeline (server source,
lines 239-242 inside ConvertImage): QuantizeColors runs only when
colors > 0, otherwise the downscaled image passes through untouched. -/
def quantizeStage (img : Image) (colors : Int) : Image :=
  if 0 < colors then QuantizeColors img colors else img

/-- ConvertImage (server source, lines 235-246): Downscale, then the guarded
quantization stage, then UpscaleNearestNeighbor. -/
def ConvertImage (img : Image) (pixelSize scale colors : Int) : Image :=
  UpscaleNearestNeighbor (quantizeStage (Downscale img pixelSize) colors) scale

/-- The parameter defaulting and conversion performed by handleConvert
(server source, lines 161-170): substitute 64 for size <= 0 and 8 for
scale <= 0, pass colors through untouched, then run ConvertImage. -/
def handleConvertImage (img : Image) (size scale colors : Int) : Image :=
  ConvertImage img (if size ≤ 0 then 64 else size) (if scale ≤ 0 then 8 else scale) colors

/-- The parameter defaulting and conversion performed by handleDownload
(server source, lines 217-226), duplicated verbatim from handleConvert. -/
def handleDownloadImage (img : Image) (size scale colors : Int) : Image :=
  ConvertImage img (if size ≤ 0 then 64 else size) (if scale ≤ 0 then 8 else scale) colors

/-- Session (server source, lines 20-24): the stored image plus the two
timestamps, in nanoseconds. -/
structure Session where
  image : Image
  createdAt : Nat
  lastUsed : Nat

/-- The sessions map of Server (server source, line 27), as a partial map
from session id to Session. -/
def Sessions : Type := String → Option Session

/-- The empty sessions map a fresh Server starts with (server source,
line 33). -/
def emptySessions : Sessions := fun _ => none

/-- Session lookup, as performed by both handlers before acting
(server source, lines 147-149 and 208-210). -/
def sessionGet (s : Sessions) (id : String) : Option Session := s id

/-- 30 minutes in nanoseconds: the idle threshold of the reaper
(server source, line 45). -/
def idleTimeout : Nat := 1800000000000

/-- 5 minutes in nanoseconds: the reaper tick interval (server source,
line 40). -/
def cleanupInterval : Nat := 300000000000

/-- The effect of handleUpload on the sessions map (server source, lines
103-109): insert a Session with createdAt = lastUsed = now. -/
def handleUploadStore (s : Sessions) (id : String) (img : Image) (now : Nat) : Sessions :=
  fun i => if i = id then some ⟨img, now, now⟩ else s i

/-- The effect of handleConvert on the sessions map (server source, lines
147-159): when the id resolves, set lastUsed = now; otherwise the request
is rejected and the map is untouched. -/
def handleConvertStore (s : Sessions) (id : String) (now : Nat) : Sessions :=
  fun i => if i = id then (s i).map (fun sess => { sess with lastUsed := now }) else s i

/-- The effect of handleDownload on the sessions map (server source, lines
189-232): the handler only reads the map; it performs no write at all. -/
def handleDownloadStore (s : Sessions) (_id : String) (_now : Nat) : Sessions := s

/-- One tick of cleanupLoop (server source, lines 39-51): delete every
session whose idle time now - lastUsed exceeds the idle threshold. -/
def cleanupTick (s : Sessions) (now : Nat) : Sessions :=
  fun i =>
    match s i with
    | some sess => if now - sess.lastUsed > idleTimeout then none else some sess
    | none => none

/-- The store-mutating operations a running server performs, used to state
properties over a session's lifetime. -/
inductive StoreOp where
  | upload (id : String) (img : Image)
  | convert (id : String)
  | download (id : String)
  | tick

/-- Dispatch of one operation at clock value now to its effect on the
sessions map. -/
def applyOp (s : Sessions) (op : StoreOp) (now : Nat) : Sessions :=
  match op with
  | .upload id img => handleUploadStore s id img now
  | .convert id => handleConvertStore s id now
  | .download id => handleDownloadStore s id now
  | .tick => cleanupTick s now

/-- A small concrete 4x4 test image with distinct pixels, used to
instantiate hypotheses of the claim theorems. -/
def testImg : Image where
  width := 4
  height := 4
  px := fun x y =>
    ⟨⟨(60 * x + 15 * y) % 256, Nat.mod_lt _ (by omega)⟩,
     ⟨(50 * x) % 256, Nat.mod_lt _ (by omega)⟩,
     ⟨(40 * y) % 256, Nat.mod_lt _ (by omega)⟩,
     ⟨255, by omega⟩⟩

/-! ## Helper lemmas -/

/-- Truncated division of natural-number casts is division of the
numerals: the tdiv clauses reduce definitionally on ofNat. -/
theorem natCast_tdiv (a b : Nat) : (a : Int).tdiv (b : Int) = ((a / b : Nat) : Int) := rfl

/-- lgAux computes the floor logarithm when given enough fuel. -/
theorem lgAux_spec : ∀ (fuel n : Nat), 0 < n → n ≤ fuel →
    2 ^ lgAux fuel n ≤ n ∧ n < 2 ^ (lgAux fuel n + 1) := by
  intro fuel
  induction fuel with
  | zero => intro n h1 h2; omega
  | succ f ih =>
    intro n h1 h2
    by_cases hn : n ≤ 1
    · have : n = 1 := by omega
      subst this
      simp [lgAux]
    · have h3 : 0 < n / 2 := by omega
      have h4 : n / 2 ≤ f := by omega
      obtain ⟨ha, hb⟩ := ih (n / 2) h3 h4
      constructor
      · show 2 ^ (if n ≤ 1 then 0 else lgAux f (n / 2) + 1) ≤ n
        rw [if_neg hn, pow_succ]
        omega
      · show n < 2 ^ ((if n ≤ 1 then 0 else lgAux f (n / 2) + 1) + 1)
        rw [if_neg hn, pow_succ]
        omega

/-- lg n is the floor of the base-2 logarithm of a positive n. -/
theorem lg_spec (n : Nat) (h : 0 < n) :
    2 ^ lg n ≤ n ∧ n < 2 ^ (lg n + 1) :=
  lgAux_spec n n h (Nat.le_refl n)

/-- The rounded quotient deviates from n / d by at most one half:
2 * rne n d * d ≤ 2 * n + d. -/
theorem rne_upper (n d : Nat) (hd : 0 < d) : 2 * rne n d * d ≤ 2 * n + d := by
  obtain ⟨q, r, hr, rfl⟩ : ∃ q r, r < d ∧ n = d * q + r :=
    ⟨n / d, n % d, Nat.mod_lt n hd, (Nat.div_add_mod n d).symm⟩
  have hdiv : (d * q + r) / d = q := by
    rw [Nat.mul_add_div hd, Nat.div_eq_of_lt hr]; omega
  have hmod : (d * q + r) % d = r := by
    rw [Nat.mul_add_mod, Nat.mod_eq_of_lt hr]
  unfold rne
  rw [hdiv, hmod]
  split_ifs <;> nlinarith [hr]

/-- Rounding to nearest never falls below the floor of the quotient. -/
theorem div_le_rne (n d : Nat) : n / d ≤ rne n d := by
  unfold rne
  split_ifs <;> omega

/-- flExp never exceeds the logarithm of the numerator. -/
theorem flExp_le_lg (W t : Nat) : flExp W t ≤ lg W := by
  unfold flExp
  split_ifs <;> omega

/-- The binade exponent is a lower bound: t * 2^(flExp W t) ≤ W, i.e.
2^(flExp W t) ≤ W / t as rationals. -/
theorem flExp_le (W t : Nat) (ht : 0 < t) (htW : t ≤ W) :
    t * 2 ^ flExp W t ≤ W := by
  have hW : 0 < W := by omega
  obtain ⟨hWl, hWu⟩ := lg_spec W hW
  obtain ⟨htl, htu⟩ := lg_spec t ht
  unfold flExp
  split_ifs with hcond
  · have hab : lg t ≤ lg W := by
      by_contra hc
      have h2 : 2 ^ (lg W + 1) ≤ 2 ^ lg t := Nat.pow_le_pow_right (by omega) (by omega)
      omega
    have key : t * 2 ^ (lg W - lg t) * 2 ^ lg t = t * 2 ^ lg W := by
      rw [mul_assoc, ← pow_add]
      congr 2
      omega
    have h1 : t * 2 ^ (lg W - lg t) * 2 ^ lg t ≤ W * 2 ^ lg t := by
      rw [key]; exact hcond
    exact Nat.le_of_mul_le_mul_right h1 (Nat.pos_pow_of_pos _ (by omega))
  · have hba : lg t < lg W := by
      by_contra hc
      have h2 : 2 ^ lg W ≤ 2 ^ lg t := Nat.pow_le_pow_right (by omega) (by omega)
      exact hcond (Nat.mul_le_mul htW h2)
    have h1 : t * 2 ^ (lg W - lg t - 1) < 2 ^ (lg t + 1) * 2 ^ (lg W - lg t - 1) :=
      mul_lt_mul_of_pos_right htu (Nat.pos_pow_of_pos _ (by omega))
    have h2 : 2 ^ (lg t + 1) * 2 ^ (lg W - lg t - 1) = 2 ^ lg W := by
      rw [← pow_add]
      congr 1
      omega
    omega

/-- The float64-computed source index stays strictly inside the source
extent: correctly rounded 53-bit arithmetic cannot push
(x + 0.5) * (W / t) past W when x < t and t ≤ W ≤ 2^50 (the two rounding
errors are bounded by half an ulp each, far below the 1/(2t) margin). -/
theorem goSrcIndex_lt (x W t : Nat) (hx : x < t) (htW : t ≤ W)
    (hWb : W ≤ 2 ^ 50) : goSrcIndex x W t < W := by
  have ht : 0 < t := by omega
  have hW : 0 < W := by omega
  have he52 : flExp W t ≤ 52 := by
    have h1 := flExp_le_lg W t
    have h2 : 2 ^ lg W ≤ W := (lg_spec W hW).1
    have h3 : lg W ≤ 50 := by
      by_contra hc
      have h4 : 2 ^ 51 ≤ 2 ^ lg W := Nat.pow_le_pow_right (by omega) (by omega)
      have h5 : (2:Nat) ^ 51 = 2251799813685248 := by norm_num
      have h6 : (2:Nat) ^ 50 = 1125899906842624 := by norm_num
      omega
    omega
  set e := flExp W t with hedef
  set m1 := flMant W t with hm1def
  set N2 := (2 * x + 1) * m1 with hN2def
  set s := lg N2 + 1 - 53 with hsdef
  set M := rne N2 (2 ^ s) with hMdef
  show M * 2 ^ (s + e) / 2 ^ 53 < W
  have hQE : (2:Nat) ^ (52 - e) * 2 ^ e = 2 ^ 52 := by
    rw [← pow_add]
    congr 1
    omega
  have hF2 : t * 2 ^ e ≤ W := flExp_le W t ht htW
  have hF3 : 2 * m1 * t ≤ 2 * (W * 2 ^ (52 - e)) + t := rne_upper _ t ht
  have hKm1 : 2 ^ 52 ≤ m1 := by
    have h1 : 2 ^ 52 * t ≤ W * 2 ^ (52 - e) := by
      have h2 : t * 2 ^ e * 2 ^ (52 - e) ≤ W * 2 ^ (52 - e) :=
        Nat.mul_le_mul_right _ hF2
      calc 2 ^ 52 * t = t * (2 ^ (52 - e) * 2 ^ e) := by rw [hQE]; ring
        _ = t * 2 ^ e * 2 ^ (52 - e) := by ring
        _ ≤ W * 2 ^ (52 - e) := h2
    have h3 : 2 ^ 52 ≤ W * 2 ^ (52 - e) / t := (Nat.le_div_iff_mul_le ht).mpr h1
    exact le_trans h3 (div_le_rne _ _)
  have hN2pos : 0 < N2 := by
    have h1 : (0:Nat) < 2 ^ 52 := Nat.pos_pow_of_pos _ (by omega)
    have h2 : 0 < m1 := by omega
    positivity
  have hSK : 2 ^ s * 2 ^ 52 ≤ N2 := by
    rcases le_or_lt (lg N2 + 1) 53 with h53 | h53
    · have hs0 : s = 0 := by omega
      rw [hs0, pow_zero, one_mul]
      calc (2:Nat) ^ 52 ≤ m1 := hKm1
        _ ≤ (2 * x + 1) * m1 := Nat.le_mul_of_pos_left _ (by omega)
    · have heq : s + 52 = lg N2 := by omega
      calc (2:Nat) ^ s * 2 ^ 52 = 2 ^ (s + 52) := (pow_add 2 s 52).symm
        _ = 2 ^ lg N2 := by rw [heq]
        _ ≤ N2 := (lg_spec N2 hN2pos).1
  have hF7 : 2 * M * 2 ^ s ≤ 2 * N2 + 2 ^ s :=
    rne_upper N2 (2 ^ s) (Nat.pos_pow_of_pos _ (by omega))
  rw [Nat.div_lt_iff_lt_mul (Nat.pos_pow_of_pos 53 (by omega))]
  rw [pow_add]
  have chain : 4 * t * 2 ^ 52 * (M * (2 ^ s * 2 ^ e)) < 4 * t * 2 ^ 52 * (W * 2 ^ 53) := by
    have step1 : 4 * t * 2 ^ 52 * (M * (2 ^ s * 2 ^ e)) =
        (2 * M * 2 ^ s) * (2 * t * 2 ^ 52 * 2 ^ e) := by ring
    have step2 : (2 * M * 2 ^ s) * (2 * t * 2 ^ 52 * 2 ^ e) ≤
        (2 * N2 + 2 ^ s) * (2 * t * 2 ^ 52 * 2 ^ e) :=
      Nat.mul_le_mul_right _ hF7
    have step3 : (2 * N2 + 2 ^ s) * (2 * t * 2 ^ 52 * 2 ^ e) =
        (2 * N2) * (2 * t * 2 ^ 52 * 2 ^ e) + (2 ^ s * 2 ^ 52) * (2 * t * 2 ^ e) := by
      ring
    have step4 : (2 * N2) * (2 * t * 2 ^ 52 * 2 ^ e) + (2 ^ s * 2 ^ 52) * (2 * t * 2 ^ e) ≤
        (2 * N2) * (2 * t * 2 ^ 52 * 2 ^ e) + N2 * (2 * t * 2 ^ e) :=
      Nat.add_le_add_left (Nat.mul_le_mul_right _ hSK) _
    have step5 : (2 * N2) * (2 * t * 2 ^ 52 * 2 ^ e) + N2 * (2 * t * 2 ^ e) =
        (2 * m1 * t) * ((2 * x + 1) * (2 * 2 ^ 52 + 1) * 2 ^ e) := by
      rw [hN2def]; ring
    have step6 : (2 * m1 * t) * ((2 * x + 1) * (2 * 2 ^ 52 + 1) * 2 ^ e) ≤
        (2 * (W * 2 ^ (52 - e)) + t) * ((2 * x + 1) * (2 * 2 ^ 52 + 1) * 2 ^ e) :=
      Nat.mul_le_mul_right _ hF3
    have step7 : (2 * (W * 2 ^ (52 - e)) + t) * ((2 * x + 1) * (2 * 2 ^ 52 + 1) * 2 ^ e) =
        (2 * x + 1) * (2 * 2 ^ 52 + 1) * (2 * W * (2 ^ (52 - e) * 2 ^ e) + t * 2 ^ e) := by
      ring
    have step8 : (2 * x + 1) * (2 * 2 ^ 52 + 1) * (2 * W * (2 ^ (52 - e) * 2 ^ e) + t * 2 ^ e) =
        (2 * x + 1) * (2 * 2 ^ 52 + 1) * (2 * W * 2 ^ 52 + t * 2 ^ e) := by
      rw [hQE]
    have step9 : (2 * x + 1) * (2 * 2 ^ 52 + 1) * (2 * W * 2 ^ 52 + t * 2 ^ e) ≤
        (2 * x + 1) * (2 * 2 ^ 52 + 1) * (2 * W * 2 ^ 52 + W) :=
      Nat.mul_le_mul_left _ (Nat.add_le_add_left hF2 _)
    have step10 : (2 * x + 1) * (2 * 2 ^ 52 + 1) * (2 * W * 2 ^ 52 + W) =
        ((2 * x + 1) * ((2 * 2 ^ 52 + 1) * (2 * 2 ^ 52 + 1))) * W := by
      ring
    have step11 : (2 * x + 1) * ((2 * 2 ^ 52 + 1) * (2 * 2 ^ 52 + 1)) <
        4 * t * 2 ^ 52 * (2 * 2 ^ 52) := by
      have hp52 : (2:Nat) ^ 52 = 4503599627370496 := by norm_num
      have hp50 : (2:Nat) ^ 50 = 1125899906842624 := by norm_num
      rw [hp52]
      have htb : t ≤ 1125899906842624 := by omega
      nlinarith [hx, htb]
    have step12 : ((2 * x + 1) * ((2 * 2 ^ 52 + 1) * (2 * 2 ^ 52 + 1))) * W <
        (4 * t * 2 ^ 52 * (2 * 2 ^ 52)) * W :=
      mul_lt_mul_of_pos_right step11 hW
    have step13 : (4 * t * 2 ^ 52 * (2 * 2 ^ 52)) * W =
        4 * t * 2 ^ 52 * (W * 2 ^ 53) := by
      have h253 : (2:Nat) ^ 53 = 2 * 2 ^ 52 := by norm_num
      rw [h253]; ring
    omega
  exact Nat.lt_of_mul_lt_mul_left chain

/-- On a natural-number target width, the computed target height is the
natural-number floor division of the spec. -/
theorem targetHeightOf_natCast (img : Image) (t : Nat) :
    targetHeightOf img (t : Int) = ((img.height * t / img.width : Nat) : Int) := by
  unfold targetHeightOf
  rw [← Int.natCast_mul]
  exact natCast_tdiv _ _

/-! ## Claim theorems -/

/-- A 26x26 test image whose red channel encodes the column index and
green channel the row index, used to exhibit the float64 sampling
deviation of Downscale. -/
def testImg26 : Image where
  width := 26
  height := 26
  px := fun x y =>
    ⟨⟨x % 256, Nat.mod_lt _ (by omega)⟩, ⟨y % 256, Nat.mod_lt _ (by omega)⟩,
     ⟨0, by omega⟩, ⟨255, by omega⟩⟩

/-- C1 counterexample: downscaling the 26x26 test image to targetWidth 23,
the destination pixel (11, 0) is the source pixel of column 12 — the
float64 product 11.5 * (26/23) evaluates just below 13 and truncates to
12 — whereas the claim's exact formula floor((x + 0.5) * W / targetWidth)
gives column 13, whose pixel differs. -/
theorem downscale_exact_formula_fails :
    (Downscale testImg26 23).px 11 0 = testImg26.px 12 0 ∧
    (Downscale testImg26 23).px 11 0 ≠
      testImg26.px ((2 * 11 + 1) * testImg26.width / (2 * (23 : Int).toNat))
        ((2 * 0 + 1) * testImg26.height /
          (2 * (testImg26.height * (23 : Int).toNat / testImg26.width))) := by
  constructor
  · decide
  · decide

/-- C1 (amended): for every source image with positive dimensions no
larger than 2^50 (far beyond anything constructible) and every
targetWidth with 0 < targetWidth <= width, Downscale returns an image of
width exactly targetWidth and height floor(height * targetWidth / width),
and every destination pixel (x, y) is the source pixel at the
float64-computed nearest-neighbor coordinates
srcX = int((x + 0.5) * (width / targetWidth)) and
srcY = int((y + 0.5) * (height / targetHeight)) — which can land one
below the exact-arithmetic center formula. -/
theorem downscale_dims_and_float_sampling (img : Image) (tw : Int)
    (hW : 0 < img.width) (hH : 0 < img.height) (htw : 0 < tw)
    (hwle : tw ≤ (img.width : Int))
    (hWb : img.width ≤ 2 ^ 50) (hHb : img.height ≤ 2 ^ 50) :
    (Downscale img tw).width = tw.toNat ∧
    (Downscale img tw).height = img.height * tw.toNat / img.width ∧
    ∀ x y, x < tw.toNat → y < img.height * tw.toNat / img.width →
      (Downscale img tw).px x y =
        img.px (goSrcIndex x img.width tw.toNat)
               (goSrcIndex y img.height (img.height * tw.toNat / img.width)) := by
  obtain ⟨t, rfl⟩ : ∃ t : Nat, tw = (t : Int) :=
    ⟨tw.toNat, (Int.toNat_of_nonneg htw.le).symm⟩
  have htN : ((t : Int)).toNat = t := Int.toNat_natCast t
  have hteq := targetHeightOf_natCast img t
  have hthN : (targetHeightOf img (t : Int)).toNat = img.height * t / img.width := by
    rw [hteq, Int.toNat_natCast]
  refine ⟨?_, ?_, ?_⟩
  · show ((t : Int)).natAbs = ((t : Int)).toNat
    omega
  · show (targetHeightOf img (t : Int)).natAbs = img.height * t / img.width
    rw [hteq]
    exact Int.natAbs_ofNat _
  · intro x y hx hy
    rw [htN] at hx
    have htle : t ≤ img.width := by exact_mod_cast hwle
    have hthle : img.height * t / img.width ≤ img.height := by
      calc img.height * t / img.width
          ≤ img.height * img.width / img.width :=
            Nat.div_le_div_right (Nat.mul_le_mul_left _ htle)
        _ = img.height := Nat.mul_div_cancel _ hW
    have hsx := goSrcIndex_lt x img.width t hx htle hWb
    have hsy := goSrcIndex_lt y img.height (img.height * t / img.width) hy hthle hHb
    simp only [Downscale, htN, hthN]
    rw [if_pos ⟨hx, hy⟩]
    exact Image.At_eq_px hsx hsy

/-- C1 (amended) witness: the hypotheses hold for the concrete 4x4 test
image with targetWidth 2, and the conclusion follows by applying the
theorem. -/
theorem downscale_dims_and_float_sampling_witness :
    (0 < testImg.width ∧ 0 < testImg.height ∧ 0 < (2 : Int) ∧
      (2 : Int) ≤ (testImg.width : Int) ∧
      testImg.width ≤ 2 ^ 50 ∧ testImg.height ≤ 2 ^ 50) ∧
    ((Downscale testImg 2).width = (2 : Int).toNat ∧
     (Downscale testImg 2).height = testImg.height * (2 : Int).toNat / testImg.width ∧
     ∀ x y, x < (2 : Int).toNat →
       y < testImg.height * (2 : Int).toNat / testImg.width →
       (Downscale testImg 2).px x y =
         testImg.px (goSrcIndex x testImg.width (2 : Int).toNat)
           (goSrcIndex y testImg.height
             (testImg.height * (2 : Int).toNat / testImg.width))) :=
  ⟨⟨by decide, by decide, by decide, by decide, by decide, by decide⟩,
   downscale_dims_and_float_sampling testImg 2 (by decide) (by decide) (by decide)
     (by decide) (by decide) (by decide)⟩

/-- C10: for every source image with positive dimensions no larger than
2^50 (far beyond anything constructible) and every targetWidth with
0 < targetWidth <= width, the float64-computed source coordinates
Downscale computes for a destination pixel (x, y) — srcX =
int((x + 0.5) * scaleX) and srcY = int((y + 0.5) * scaleY), modelled
bit-exactly by goSrcIndex — are strictly inside the source bounds, so
the out-of-bounds branch of the source image access (the Pixel.zero
branch of Image.At) is unreachable: Image.At agrees with the raw pixel
grid at every sampled coordinate. -/
theorem downscale_sample_in_bounds (img : Image) (tw : Int) (x y : Nat)
    (hW : 0 < img.width) (hH : 0 < img.height) (htw : 0 < tw)
    (hwle : tw ≤ (img.width : Int))
    (hWb : img.width ≤ 2 ^ 50) (hHb : img.height ≤ 2 ^ 50)
    (hx : x < tw.toNat) (hy : y < img.height * tw.toNat / img.width) :
    goSrcIndex x img.width tw.toNat < img.width ∧
    goSrcIndex y img.height (img.height * tw.toNat / img.width) < img.height ∧
    img.At (goSrcIndex x img.width tw.toNat)
           (goSrcIndex y img.height (img.height * tw.toNat / img.width)) =
      img.px (goSrcIndex x img.width tw.toNat)
             (goSrcIndex y img.height (img.height * tw.toNat / img.width)) := by
  have htle : tw.toNat ≤ img.width := by omega
  have hthle : img.height * tw.toNat / img.width ≤ img.height := by
    calc img.height * tw.toNat / img.width
        ≤ img.height * img.width / img.width :=
          Nat.div_le_div_right (Nat.mul_le_mul_left _ htle)
      _ = img.height := Nat.mul_div_cancel _ hW
  have h1 := goSrcIndex_lt x img.width tw.toNat hx htle hWb
  have h2 := goSrcIndex_lt y img.height (img.height * tw.toNat / img.width) hy hthle hHb
  exact ⟨h1, h2, Image.At_eq_px h1 h2⟩

/-- C10 witness: hypotheses instantiated on the 4x4 test image with
targetWidth 3 at destination pixel (2, 1). -/
theorem downscale_sample_in_bounds_witness :
    (0 < testImg.width ∧ 0 < testImg.height ∧ 0 < (3 : Int) ∧
      (3 : Int) ≤ (testImg.width : Int) ∧
      testImg.width ≤ 2 ^ 50 ∧ testImg.height ≤ 2 ^ 50 ∧
      2 < (3 : Int).toNat ∧
      1 < testImg.height * (3 : Int).toNat / testImg.width) ∧
    (goSrcIndex 2 testImg.width (3 : Int).toNat < testImg.width ∧
     goSrcIndex 1 testImg.height
       (testImg.height * (3 : Int).toNat / testImg.width) < testImg.height ∧
     testImg.At (goSrcIndex 2 testImg.width (3 : Int).toNat)
         (goSrcIndex 1 testImg.height
           (testImg.height * (3 : Int).toNat / testImg.width)) =
       testImg.px (goSrcIndex 2 testImg.width (3 : Int).toNat)
         (goSrcIndex 1 testImg.height
           (testImg.height * (3 : Int).toNat / testImg.width))) :=
  ⟨⟨by decide, by decide, by decide, by decide, by decide, by decide, by decide,
    by decide⟩,
   downscale_sample_in_bounds testImg 3 2 1 (by decide) (by decide) (by decide)
     (by decide) (by decide) (by decide) (by decide) (by decide)⟩

/-- C2: for every input image and every scaleFactor >= 1,
UpscaleNearestNeighbor multiplies both dimensions by scaleFactor exactly,
and every output pixel (x, y) is the input pixel at
(x / scaleFactor, y / scaleFactor) with integer division: strict block
replication. -/
theorem upscale_block_replication (img : Image) (s : Int) (hs : 1 ≤ s) :
    (UpscaleNearestNeighbor img s).width = img.width * s.toNat ∧
    (UpscaleNearestNeighbor img s).height = img.height * s.toNat ∧
    ∀ x y, x < img.width * s.toNat → y < img.height * s.toNat →
      (UpscaleNearestNeighbor img s).px x y =
        img.px (x / s.toNat) (y / s.toNat) := by
  obtain ⟨n, rfl⟩ : ∃ n : Nat, s = (n : Int) :=
    ⟨s.toNat, (Int.toNat_of_nonneg (by omega)).symm⟩
  have hn : 1 ≤ n := by exact_mod_cast hs
  have hcastW : ((img.width : Int) * (n : Int)).natAbs = img.width * n := by
    rw [← Int.natCast_mul]; exact Int.natAbs_ofNat _
  have hcastH : ((img.height : Int) * (n : Int)).natAbs = img.height * n := by
    rw [← Int.natCast_mul]; exact Int.natAbs_ofNat _
  have hcastW2 : ((img.width : Int) * (n : Int)).toNat = img.width * n := by
    rw [← Int.natCast_mul]; exact Int.toNat_natCast _
  have hcastH2 : ((img.height : Int) * (n : Int)).toNat = img.height * n := by
    rw [← Int.natCast_mul]; exact Int.toNat_natCast _
  have htN : ((n : Int)).toNat = n := Int.toNat_natCast n
  refine ⟨?_, ?_, ?_⟩
  · show ((img.width : Int) * (n : Int)).natAbs = img.width * ((n : Int)).toNat
    rw [htN]; exact hcastW
  · show ((img.height : Int) * (n : Int)).natAbs = img.height * ((n : Int)).toNat
    rw [htN]; exact hcastH
  · intro x y hx hy
    rw [htN] at hx hy
    have hxn : x / n < img.width := by
      rw [Nat.div_lt_iff_lt_mul (by omega : 0 < n)]; exact hx
    have hyn : y / n < img.height := by
      rw [Nat.div_lt_iff_lt_mul (by omega : 0 < n)]; exact hy
    simp only [UpscaleNearestNeighbor, htN]
    rw [if_pos ⟨by rw [hcastW2]; exact hx, by rw [hcastH2]; exact hy⟩]
    exact Image.At_eq_px hxn hyn

/-- C2 witness: hypotheses instantiated on the 4x4 test image with
scaleFactor 2. -/
theorem upscale_block_replication_witness :
    (1 ≤ (2 : Int)) ∧
    ((UpscaleNearestNeighbor testImg 2).width = testImg.width * (2 : Int).toNat ∧
     (UpscaleNearestNeighbor testImg 2).height = testImg.height * (2 : Int).toNat ∧
     ∀ x y, x < testImg.width * (2 : Int).toNat →
       y < testImg.height * (2 : Int).toNat →
       (UpscaleNearestNeighbor testImg 2).px x y =
         testImg.px (x / (2 : Int).toNat) (y / (2 : Int).toNat)) :=
  ⟨by decide, upscale_block_replication testImg 2 (by decide)⟩

/-- Applying quantizeChannel twice with the same step equals applying it
once: every produced level is a fixed point of the rounding, and when the
255 clamp fires, 255 itself maps back to 255. -/
theorem quantizeChannel_idem (v : Fin 256) (step : Nat) :
    quantizeChannel (quantizeChannel v step) step = quantizeChannel v step := by
  unfold quantizeChannel
  apply Fin.ext
  simp only
  rcases Nat.eq_zero_or_pos step with h0 | hpos
  · subst h0; simp
  · set L := (2 * v.val + step) / (2 * step) with hL
    have key1 : ∀ m : Nat, (2 * (m * step) + step) / (2 * step) = m := by
      intro m
      rw [show 2 * (m * step) + step = step + (2 * step) * m by ring]
      rw [Nat.add_mul_div_left _ _ (by omega : 0 < 2 * step)]
      rw [Nat.div_eq_of_lt (by omega : step < 2 * step)]
      omega
    by_cases hle : L * step ≤ 255
    · rw [min_eq_right hle, key1, min_eq_right hle]
    · push_neg at hle
      rw [min_eq_left (by omega : 255 ≤ L * step)]
      have hLM : L ≤ (2 * 255 + step) / (2 * step) := by
        apply Nat.div_le_div_right
        have : v.val ≤ 255 := by omega
        omega
      have h255 : 255 ≤ (2 * 255 + step) / (2 * step) * step :=
        le_trans (Nat.le_of_lt hle) (Nat.mul_le_mul_right step hLM)
      rw [min_eq_left h255]

/-- quantizePixel is idempotent channel-wise; alpha is untouched. -/
theorem quantizePixel_idem (p : Pixel) (step : Nat) :
    quantizePixel (quantizePixel p step) step = quantizePixel p step := by
  simp [quantizePixel, quantizeChannel_idem]

/-- C3: for every image and colorCount > 0, QuantizeColors keeps the
dimensions and maps every pixel channel v to min(255, round(v/step)*step)
with step = floor(255 / (levelsPerChannel - 1)) and
levelsPerChannel = max(2, floor(colorCount / 3)); round(v/step) is
floor(v/step + 1/2), written exactly as (2*v + step) / (2*step); the
alpha channel is passed through unmodified. -/
theorem quantize_channel_formula (img : Image) (n : Int) (hn : 0 < n)
    (step : Nat)
    (hstep : step = ((255 : Int).tdiv (max 2 (n.tdiv 3) - 1)).toNat) :
    (QuantizeColors img n).width = img.width ∧
    (QuantizeColors img n).height = img.height ∧
    ∀ x y, x < img.width → y < img.height →
      (((QuantizeColors img n).px x y).r.val
          = min 255 ((2 * (img.px x y).r.val + step) / (2 * step) * step) ∧
       ((QuantizeColors img n).px x y).g.val
          = min 255 ((2 * (img.px x y).g.val + step) / (2 * step) * step) ∧
       ((QuantizeColors img n).px x y).b.val
          = min 255 ((2 * (img.px x y).b.val + step) / (2 * step) * step) ∧
       ((QuantizeColors img n).px x y).a = (img.px x y).a) := by
  subst hstep
  refine ⟨rfl, rfl, ?_⟩
  intro x y hx hy
  simp only [QuantizeColors]
  rw [if_pos ⟨hx, hy⟩, Image.At_eq_px hx hy]
  exact ⟨rfl, rfl, rfl, rfl⟩

/-- C3 witness: hypotheses instantiated with colorCount 16, whose derived
step is 63, on the 4x4 test image at pixel (1, 2). -/
theorem quantize_channel_formula_witness :
    (0 < (16 : Int) ∧
      63 = ((255 : Int).tdiv (max 2 ((16 : Int).tdiv 3) - 1)).toNat) ∧
    ((QuantizeColors testImg 16).width = testImg.width ∧
     (QuantizeColors testImg 16).height = testImg.height ∧
     ∀ x y, x < testImg.width → y < testImg.height →
       (((QuantizeColors testImg 16).px x y).r.val
           = min 255 ((2 * (testImg.px x y).r.val + 63) / (2 * 63) * 63) ∧
        ((QuantizeColors testImg 16).px x y).g.val
           = min 255 ((2 * (testImg.px x y).g.val + 63) / (2 * 63) * 63) ∧
        ((QuantizeColors testImg 16).px x y).b.val
           = min 255 ((2 * (testImg.px x y).b.val + 63) / (2 * 63) * 63) ∧
        ((QuantizeColors testImg 16).px x y).a = (testImg.px x y).a)) :=
  ⟨⟨by decide, by decide⟩,
   quantize_channel_formula testImg 16 (by decide) 63 (by decide)⟩

/-- C4: QuantizeColors is idempotent for every colorCount > 0: applying it
twice with the same colorCount equals applying it once, because every
quantized channel level is a fixed point of the per-channel rounding. -/
theorem quantize_idempotent (img : Image) (n : Int) (hn : 0 < n) :
    QuantizeColors (QuantizeColors img n) n = QuantizeColors img n := by
  refine Image.ext rfl rfl ?_
  funext x y
  by_cases hxy : x < img.width ∧ y < img.height
  · simp [QuantizeColors, Image.At, hxy.1, hxy.2, quantizePixel_idem]
  · simp only [QuantizeColors]
    rw [if_neg hxy, if_neg hxy]

/-- C4 witness: hypothesis instantiated with colorCount 16 on the 4x4 test
image. -/
theorem quantize_idempotent_witness :
    (0 < (16 : Int)) ∧
    QuantizeColors (QuantizeColors testImg 16) 16 = QuantizeColors testImg 16 :=
  ⟨by decide, quantize_idempotent testImg 16 (by decide)⟩

/-- C5: the quantization stage with colorCount <= 0 is the identity: the
pipeline skips QuantizeColors entirely and the stage returns its input
unchanged (pixel-for-pixel, alpha included), so ConvertImage degenerates
to downscale followed by upscale. -/
theorem quantize_skipped_nonpositive (img : Image) (colors : Int)
    (h : colors ≤ 0) :
    quantizeStage img colors = img ∧
    ∀ pixelSize scale : Int,
      ConvertImage img pixelSize scale colors =
        UpscaleNearestNeighbor (Downscale img pixelSize) scale := by
  refine ⟨if_neg (by omega), fun ps sc => ?_⟩
  unfold ConvertImage quantizeStage
  rw [if_neg (show ¬(0 < colors) by omega)]

/-- C5 witness: hypothesis instantiated with colorCount 0 on the 4x4 test
image. -/
theorem quantize_skipped_nonpositive_witness :
    ((0 : Int) ≤ 0) ∧
    (quantizeStage testImg 0 = testImg ∧
     ∀ pixelSize scale : Int,
       ConvertImage testImg pixelSize scale 0 =
         UpscaleNearestNeighbor (Downscale testImg pixelSize) scale) :=
  ⟨by decide, quantize_skipped_nonpositive testImg 0 (by decide)⟩

/-- C6 counterexample: a download request at time 5 successfully resolves
the session uploaded at time 0, yet the session map is completely
untouched and lastUsedAt stays 0, not 5 — the claim that every successful
convert-or-download access updates lastUsedAt is false for download. -/
theorem download_leaves_lastUsed_stale :
    sessionGet (handleUploadStore emptySessions "a" testImg 0) "a"
      = some ⟨testImg, 0, 0⟩ ∧
    handleDownloadStore (handleUploadStore emptySessions "a" testImg 0) "a" 5
      = handleUploadStore emptySessions "a" testImg 0 ∧
    (sessionGet
        (handleDownloadStore (handleUploadStore emptySessions "a" testImg 0) "a" 5)
        "a").map Session.lastUsed = some 0 ∧
    (sessionGet
        (handleDownloadStore (handleUploadStore emptySessions "a" testImg 0) "a" 5)
        "a").map Session.lastUsed ≠ some 5 := by
  refine ⟨?_, rfl, ?_, ?_⟩ <;>
    simp [sessionGet, handleUploadStore, handleDownloadStore, emptySessions]

/-- C6 amended: lastUsedAt never decreases across any store operation when
the clock is at or past the session's current lastUsedAt, and a convert
access that resolves the id sets lastUsedAt to the current time; a
download access resolves the session without updating lastUsedAt. -/
theorem lastUsed_monotone_convert_touches (s : Sessions) (id : String)
    (sess : Session) (now : Nat) (op : StoreOp)
    (hget : sessionGet s id = some sess) (hclock : sess.lastUsed ≤ now) :
    (∀ sess', sessionGet (applyOp s op now) id = some sess' →
        sess.lastUsed ≤ sess'.lastUsed) ∧
    sessionGet (handleConvertStore s id now) id =
      some { sess with lastUsed := now } := by
  simp only [sessionGet] at hget
  constructor
  · intro sess' h'
    cases op with
    | upload uid img =>
      simp only [applyOp, handleUploadStore, sessionGet] at h'
      by_cases hid : id = uid
      · rw [if_pos hid] at h'
        cases h'
        exact hclock
      · rw [if_neg hid, hget] at h'
        cases h'
        exact Nat.le_refl _
    | convert cid =>
      simp only [applyOp, handleConvertStore, sessionGet] at h'
      by_cases hid : id = cid
      · rw [if_pos hid, hget] at h'
        cases h'
        exact hclock
      · rw [if_neg hid, hget] at h'
        cases h'
        exact Nat.le_refl _
    | download did =>
      simp only [applyOp, handleDownloadStore, sessionGet] at h'
      rw [hget] at h'
      cases h'
      exact Nat.le_refl _
    | tick =>
      simp only [applyOp, cleanupTick, sessionGet, hget] at h'
      by_cases hexp : now - sess.lastUsed > idleTimeout
      · rw [if_pos hexp] at h'
        cases h'
      · rw [if_neg hexp] at h'
        cases h'
        exact Nat.le_refl _
  · simp [sessionGet, handleConvertStore, hget]

/-- C6 amended witness: hypotheses instantiated on a store holding one
session uploaded at time 0, observed by a download operation at time 3. -/
theorem lastUsed_monotone_convert_touches_witness :
    (sessionGet (handleUploadStore emptySessions "a" testImg 0) "a"
        = some ⟨testImg, 0, 0⟩ ∧
      (⟨testImg, 0, 0⟩ : Session).lastUsed ≤ 3) ∧
    ((∀ sess',
        sessionGet
            (applyOp (handleUploadStore emptySessions "a" testImg 0)
              (StoreOp.download "a") 3) "a" = some sess' →
          (⟨testImg, 0, 0⟩ : Session).lastUsed ≤ sess'.lastUsed) ∧
     sessionGet
         (handleConvertStore (handleUploadStore emptySessions "a" testImg 0) "a" 3)
         "a" =
       some { (⟨testImg, 0, 0⟩ : Session) with lastUsed := 3 }) :=
  ⟨⟨by simp [sessionGet, handleUploadStore, emptySessions], by simp⟩,
   lastUsed_monotone_convert_touches (handleUploadStore emptySessions "a" testImg 0)
     "a" ⟨testImg, 0, 0⟩ 3 (StoreOp.download "a")
     (by simp [sessionGet, handleUploadStore, emptySessions]) (by simp)⟩

/-- C7: on a reaper tick at time now, a stored session whose idle time
now - lastUsedAt exceeds the idle threshold is removed (a subsequent Get
returns not-found), and a session whose idle time does not exceed the
threshold survives the tick unchanged, stored image included. -/
theorem reaper_tick_policy (s : Sessions) (id : String) (sess : Session)
    (now : Nat) (hget : sessionGet s id = some sess) :
    (now - sess.lastUsed > idleTimeout →
      sessionGet (cleanupTick s now) id = none) ∧
    (¬now - sess.lastUsed > idleTimeout →
      sessionGet (cleanupTick s now) id = some sess) := by
  simp only [sessionGet] at hget
  constructor <;> intro h <;> simp [sessionGet, cleanupTick, hget, h]

/-- C7 witness: a store with one session last used at time 0, ticked just
past the 30-minute threshold; the session is reaped, and the same theorem
instantiated at a tick inside the threshold keeps it. -/
theorem reaper_tick_policy_witness :
    (sessionGet (handleUploadStore emptySessions "a" testImg 0) "a"
        = some ⟨testImg, 0, 0⟩) ∧
    ((idleTimeout + 1 - (⟨testImg, 0, 0⟩ : Session).lastUsed > idleTimeout →
       sessionGet
           (cleanupTick (handleUploadStore emptySessions "a" testImg 0)
             (idleTimeout + 1)) "a" = none) ∧
     (¬idleTimeout + 1 - (⟨testImg, 0, 0⟩ : Session).lastUsed > idleTimeout →
       sessionGet
           (cleanupTick (handleUploadStore emptySessions "a" testImg 0)
             (idleTimeout + 1)) "a" = some ⟨testImg, 0, 0⟩)) :=
  ⟨by simp [sessionGet, handleUploadStore, emptySessions],
   reaper_tick_policy (handleUploadStore emptySessions "a" testImg 0) "a"
     ⟨testImg, 0, 0⟩ (idleTimeout + 1)
     (by simp [sessionGet, handleUploadStore, emptySessions])⟩

/-- C8 counterexample: Downscale with targetWidth 0 on the 4x4 test image
is not rejected: it silently returns an image (0x0, zero pixel grid)
rather than failing — there is no error path in the code. -/
theorem downscale_zero_silently_returns :
    (Downscale testImg 0).width = 0 ∧ (Downscale testImg 0).height = 0 ∧
    (Downscale testImg 0).px 0 0 = Pixel.zero := by
  refine ⟨rfl, ?_, ?_⟩
  · show (targetHeightOf testImg 0).natAbs = 0
    unfold targetHeightOf
    simp
  · simp [Downscale]

/-- C8 amended: Downscale does not reject targetWidth <= 0: it is total
and silently returns an image whose pixel loop never runs, so every pixel
of the result is the zero color; for targetWidth = 0 the result is an
empty 0x0 image.  On the service paths the caller guards by substituting
the default 64 beforehand. -/
theorem downscale_nonpositive_silent (img : Image) (tw : Int)
    (hW : 0 < img.width) (h : tw ≤ 0) :
    (∀ x y, (Downscale img tw).px x y = Pixel.zero) ∧
    (tw = 0 → (Downscale img tw).width = 0 ∧ (Downscale img tw).height = 0) := by
  constructor
  · intro x y
    simp only [Downscale]
    rw [if_neg]
    rintro ⟨hx, -⟩
    omega
  · rintro rfl
    refine ⟨rfl, ?_⟩
    show (targetHeightOf img 0).natAbs = 0
    unfold targetHeightOf
    simp

/-- C8 amended witness: hypotheses instantiated on the 4x4 test image with
targetWidth -5. -/
theorem downscale_nonpositive_silent_witness :
    (0 < testImg.width ∧ (-5 : Int) ≤ 0) ∧
    ((∀ x y, (Downscale testImg (-5)).px x y = Pixel.zero) ∧
     ((-5 : Int) = 0 →
       (Downscale testImg (-5)).width = 0 ∧ (Downscale testImg (-5)).height = 0)) :=
  ⟨⟨by decide, by decide⟩,
   downscale_nonpositive_silent testImg (-5) (by decide) (by decide)⟩

/-- C9: both the convert and the download paths substitute 64 when the
supplied pixelSize is nonpositive and 8 when the supplied scaleFactor is
nonpositive, pass colorCount through uncoerced, and invoke ConvertImage
with exactly those values; colorCount 0 remains 0 and disables the
quantization stage on both paths. -/
theorem handler_default_policy (img : Image) (size scale colors : Int) :
    handleConvertImage img size scale colors =
      ConvertImage img (if size ≤ 0 then 64 else size)
        (if scale ≤ 0 then 8 else scale) colors ∧
    handleDownloadImage img size scale colors =
      ConvertImage img (if size ≤ 0 then 64 else size)
        (if scale ≤ 0 then 8 else scale) colors ∧
    handleConvertImage img size scale 0 =
      UpscaleNearestNeighbor (Downscale img (if size ≤ 0 then 64 else size))
        (if scale ≤ 0 then 8 else scale) ∧
    handleDownloadImage img size scale 0 =
      UpscaleNearestNeighbor (Downscale img (if size ≤ 0 then 64 else size))
        (if scale ≤ 0 then 8 else scale) := by
  refine ⟨rfl, rfl, ?_, ?_⟩ <;>
  · simp only [handleConvertImage, handleDownloadImage, ConvertImage, quantizeStage]
    rw [if_neg (by omega : ¬(0 : Int) < 0)]
